import Mathlib

/-!
Shallow embedding of the TmPy nucleic-acid thermodynamics calculator
(src/thermo.py, src/Tm.py, src/utilSeq.py), together with theorems that
check the natural-language specification against the code.

Sequences and duplex strings are modelled as `List Char`.  Python float
values are modelled as elements of a linear ordered field, instantiated
at `ℚ` for executable checks and at `ℝ` where `math.sqrt` and `math.log`
appear.  Fatal conditions (`sys.exit` after a printed error, and
unguarded exceptions such as `IndexError` or the `ValueError` raised by
`math.log` outside its domain) are modelled with `Except` or `Option`
results.
-/

namespace TmPy

/-- Error outcomes of the per-duplex calculation: the three reported
error kinds of `thermo.py` (`NotDNAError`, `DuplexNotFlushError`,
`NNnotExistError`), an unguarded `IndexError`, and an unguarded math
domain error (`ValueError` from `math.sqrt` or `math.log`). -/
inductive CalcErr where
  | notDNA
  | notFlush
  | nnNotExist
  | indexError
  | mathDomain
deriving DecidableEq, Repr

/-- Character complement map of `utilSeq.seqComp`: `str.translate` built
from "ACGTUacgtu" → "TGCAAtgcaa"; characters outside the table pass
through unchanged. -/
def compChar (c : Char) : Char :=
  if c = 'A' then 'T'
  else if c = 'C' then 'G'
  else if c = 'G' then 'C'
  else if c = 'T' then 'A'
  else if c = 'U' then 'A'
  else if c = 'a' then 't'
  else if c = 'c' then 'g'
  else if c = 'g' then 'c'
  else if c = 't' then 'a'
  else if c = 'u' then 'a'
  else c

/-- `utilSeq.seqRev`: literal character-order reversal. -/
def seqRev (s : List Char) : List Char := s.reverse

/-- `utilSeq.seqComp`: character-wise complement. -/
def seqComp (s : List Char) : List Char := s.map compChar

/-- `utilSeq.seqRC`: reverse complement, `seqComp (seqRev s)`. -/
def seqRC (s : List Char) : List Char := seqComp (seqRev s)

/-- Splitting a character list at separator characters, as Python
`re.split` with a single-character alternative class (such as
`"[\t,]"` or `"/"`) does: `""` yields `[""]`, separators at the ends
yield empty fields. -/
def splitOnP (p : Char → Bool) : List Char → List (List Char)
  | [] => [[]]
  | c :: rest =>
    if p c then [] :: splitOnP p rest
    else
      match splitOnP p rest with
      | [] => [[c]]
      | h :: t => (c :: h) :: t

theorem splitOnP_ne_nil (p : Char → Bool) (l : List Char) :
    splitOnP p l ≠ [] := by
  induction l with
  | nil => simp [splitOnP]
  | cons c rest ih =>
    simp only [splitOnP]
    split
    · simp
    · cases h : splitOnP p rest <;> simp

/-- A separator-free list splits into the single field consisting of the
whole list. -/
theorem splitOnP_clean (p : Char → Bool) (l : List Char)
    (h : ∀ c ∈ l, p c = false) : splitOnP p l = [l] := by
  induction l with
  | nil => rfl
  | cons c rest ih =>
    have hc : p c = false := h c (List.mem_cons_self c rest)
    have hrest : splitOnP p rest = [rest] := ih fun d hd => h d (List.mem_cons_of_mem c hd)
    simp [splitOnP, hc, hrest]

/-- Splitting at the first separator occurrence peels off the leading
field. -/
theorem splitOnP_append (p : Char → Bool) (a b : List Char) (c : Char)
    (ha : ∀ d ∈ a, p d = false) (hc : p c = true) :
    splitOnP p (a ++ c :: b) = a :: splitOnP p b := by
  induction a with
  | nil => simp [splitOnP, hc]
  | cons d a' ih =>
    have hd : p d = false := ha d (List.mem_cons_self d a')
    have ha' : splitOnP p (a' ++ c :: b) = a' :: splitOnP p b :=
      ih fun e he => ha e (List.mem_cons_of_mem d he)
    simp [splitOnP, hd, ha']

/-- Whether a character matches the `_readNN` cell-separator regular
expression `"[\t,]"`. -/
def isTabComma (c : Char) : Bool := c = '\t' || c = ','

/-- Last-wins lookup in a list of Python dictionary assignment events,
in execution order: the value of the last `NN[k]=v` with this key. -/
def dget {α : Type} (events : List (List Char × α)) (k : List Char) : Option α :=
  events.foldl (fun acc e => if e.1 = k then some e.2 else acc) none

/-- The two dictionary assignments performed for one parsed cell of
`_readNN` (thermo.py lines 131-135): the forward key
`top[0] + "/" + bottom[j]` and the reverse-complement mirror key
`reversed(bottom[j]) + "/" + reversed(top[0])`, both with the same
value.  Here `c1` is the row label `top[0]` and `c2` the header cell
`bottom[j]`. -/
def cellEvents {α : Type} (c1 c2 : List Char) (v : α) : List (List Char × α) :=
  [(c1 ++ '/' :: c2, v), (c2.reverse ++ '/' :: c1.reverse, v)]

/-- One numeric cell of `_readNN`:
`float(top[j]) if len(top[j]) > 0 else 0.0`.  `parse` stands for
Python's builtin `float`, with `none` modelling its `ValueError`. -/
def cellValue {α : Type} [Zero α] (parse : List Char → Option α)
    (cell : List Char) : Option α :=
  if cell = [] then some (0 : α) else parse cell

/-- The dictionary assignments performed for one of the five inner rows
of a `_readNN` block (loop `for j in range(1, 6)`, thermo.py lines
127-135): `header` is the split first row of the block, `cells` the
split current row.  `none` models the `IndexError` when a row has fewer
than six cells and the `ValueError` when a numeric cell fails to parse. -/
def rowEvents {α : Type} [Zero α] (parse : List Char → Option α)
    (header cells : List (List Char)) : Option (List (List Char × α)) :=
  match header, cells with
  | _ :: h1 :: h2 :: h3 :: h4 :: h5 :: _, c0 :: c1 :: c2 :: c3 :: c4 :: c5 :: _ =>
    (cellValue parse c1).bind fun v1 =>
    (cellValue parse c2).bind fun v2 =>
    (cellValue parse c3).bind fun v3 =>
    (cellValue parse c4).bind fun v4 =>
    (cellValue parse c5).bind fun v5 =>
    some (cellEvents c0 h1 v1 ++ cellEvents c0 h2 v2 ++ cellEvents c0 h3 v3 ++
      cellEvents c0 h4 v4 ++ cellEvents c0 h5 v5)
  | _, _ => none

/-- The while loop of `Thermo._readNN` (thermo.py lines 113-139) over
the cleaned file lines, producing the dictionary assignment events in
execution order.  Each block is one header line plus five value rows;
`none` models the `IndexError` raised on a truncated block. -/
def readNNGo {α : Type} [Zero α] (parse : List Char → Option α) :
    List (List Char) → Option (List (List Char × α))
  | [] => some []
  | l0 :: l1 :: l2 :: l3 :: l4 :: l5 :: rest =>
    (rowEvents parse (splitOnP isTabComma l0) (splitOnP isTabComma l1)).bind fun e1 =>
    (rowEvents parse (splitOnP isTabComma l0) (splitOnP isTabComma l2)).bind fun e2 =>
    (rowEvents parse (splitOnP isTabComma l0) (splitOnP isTabComma l3)).bind fun e3 =>
    (rowEvents parse (splitOnP isTabComma l0) (splitOnP isTabComma l4)).bind fun e4 =>
    (rowEvents parse (splitOnP isTabComma l0) (splitOnP isTabComma l5)).bind fun e5 =>
    (readNNGo parse rest).bind fun es =>
    some (e1 ++ e2 ++ e3 ++ e4 ++ e5 ++ es)
  | _ => none

/-- `Thermo._readNN` on the cleaned lines of a parameter file.  The
returned dictionary is the last-wins reading (`dget`) of the event
list. -/
def readNN {α : Type} [Zero α] (parse : List Char → Option α)
    (ls : List (List Char)) : Option (List (List Char × α)) :=
  readNNGo parse ls

/-- The mirror of a step key, as spelled in the specification:
`"XY/ZW" ↦ "reverse(ZW)/reverse(XY)"`. -/
def mirrorKey (x y : List Char) : List Char := y.reverse ++ '/' :: x.reverse

theorem dget_foldl_acc {α : Type} (e : List (List Char × α)) (k : List Char)
    (a : Option α) :
    e.foldl (fun acc p => if p.1 = k then some p.2 else acc) a =
      match e.foldl (fun acc p => if p.1 = k then some p.2 else acc) none with
      | some v => some v
      | none => a := by
  induction e generalizing a with
  | nil => rfl
  | cons p e' ih =>
    simp only [List.foldl_cons]
    rw [ih (if p.1 = k then some p.2 else a), ih (if p.1 = k then some p.2 else none)]
    cases h : List.foldl (fun acc p => if p.1 = k then some p.2 else acc) none e' with
    | some v => rfl
    | none => by_cases hpk : p.1 = k <;> simp [hpk]

theorem dget_append {α : Type} (e1 e2 : List (List Char × α)) (k : List Char) :
    dget (e1 ++ e2) k =
      match dget e2 k with
      | some v => some v
      | none => dget e1 k := by
  simp only [dget, List.foldl_append]
  exact dget_foldl_acc e2 k _

/-- Unique decomposition of a step key at the slash, given slash-free
right-hand parts. -/
theorem slash_key_eq {a b x y : List Char} (hx : '/' ∉ x) (hy : '/' ∉ y)
    (h : a ++ '/' :: b = x ++ '/' :: y) : a = x ∧ b = y := by
  induction a generalizing x with
  | nil =>
    cases x with
    | nil => simpa using h
    | cons d x' =>
      simp only [List.nil_append, List.cons_append, List.cons.injEq] at h
      exact absurd (h.1 ▸ List.mem_cons_self d x') hx
  | cons c a' ih =>
    cases x with
    | nil =>
      simp only [List.cons_append, List.nil_append, List.cons.injEq] at h
      exact absurd (h.2 ▸ List.mem_append_right a' (List.mem_cons_self '/' b)) hy
    | cons d x' =>
      simp only [List.cons_append, List.cons.injEq] at h
      obtain ⟨rfl, h2⟩ := h
      obtain ⟨rfl, rfl⟩ := ih (fun hm => hx (List.mem_cons_of_mem c hm)) h2
      exact ⟨rfl, rfl⟩

/-- Mirror invariance of an assignment-event list: a key of the shape
`XY/ZW` with slash-free parts and its mirror key look up to the same
result. -/
def MirrorInv {α : Type} (events : List (List Char × α)) : Prop :=
  ∀ x y : List Char, '/' ∉ x → '/' ∉ y →
    dget events (x ++ '/' :: y) = dget events (mirrorKey x y)

theorem mirrorInv_nil {α : Type} : MirrorInv ([] : List (List Char × α)) := by
  intro x y _ _
  rfl

theorem mirrorInv_append {α : Type} {e1 e2 : List (List Char × α)}
    (h1 : MirrorInv e1) (h2 : MirrorInv e2) : MirrorInv (e1 ++ e2) := by
  intro x y hx hy
  rw [dget_append, dget_append, h1 x y hx hy, h2 x y hx hy]

/-- The pair of assignments made for one cell is mirror-invariant. -/
theorem mirrorInv_cellEvents {α : Type} (c1 c2 : List Char) (v : α) :
    MirrorInv (cellEvents c1 c2 v) := by
  intro x y hx hy
  have hxr : '/' ∉ x.reverse := fun h => hx (List.mem_reverse.mp h)
  have hyr : '/' ∉ y.reverse := fun h => hy (List.mem_reverse.mp h)
  have hA : c1 ++ '/' :: c2 = x ++ '/' :: y ↔
      c2.reverse ++ '/' :: c1.reverse = y.reverse ++ '/' :: x.reverse := by
    constructor
    · intro h
      obtain ⟨rfl, rfl⟩ := slash_key_eq hx hy h
      rfl
    · intro h
      obtain ⟨h1, h2⟩ := slash_key_eq hyr hxr h
      rw [← List.reverse_reverse c1, ← List.reverse_reverse c2, h1, h2,
        List.reverse_reverse, List.reverse_reverse]
  have hB : c2.reverse ++ '/' :: c1.reverse = x ++ '/' :: y ↔
      c1 ++ '/' :: c2 = y.reverse ++ '/' :: x.reverse := by
    constructor
    · intro h
      obtain ⟨h1, h2⟩ := slash_key_eq hx hy h
      rw [← List.reverse_reverse c1, ← List.reverse_reverse c2, h1, h2]
    · intro h
      obtain ⟨rfl, rfl⟩ := slash_key_eq hyr hxr h
      rw [List.reverse_reverse, List.reverse_reverse]
  simp only [cellEvents, dget, List.foldl_cons, List.foldl_nil, mirrorKey]
  by_cases h2 : c2.reverse ++ '/' :: c1.reverse = x ++ '/' :: y
  · have hK1 : c1 ++ '/' :: c2 = y.reverse ++ '/' :: x.reverse := hB.mp h2
    by_cases h3 : c2.reverse ++ '/' :: c1.reverse = y.reverse ++ '/' :: x.reverse <;>
      simp [h2, h3, hK1]
  · by_cases h1 : c1 ++ '/' :: c2 = x ++ '/' :: y
    · have hK2 : c2.reverse ++ '/' :: c1.reverse = y.reverse ++ '/' :: x.reverse := hA.mp h1
      simp [h1, h2, hK2]
    · have hn1 : ¬(c2.reverse ++ '/' :: c1.reverse = y.reverse ++ '/' :: x.reverse) :=
        fun h => h1 (hA.mpr h)
      have hn2 : ¬(c1 ++ '/' :: c2 = y.reverse ++ '/' :: x.reverse) :=
        fun h => h2 (hB.mpr h)
      simp [h1, h2, hn1, hn2]

/-- A successful `rowEvents` result is mirror-invariant. -/
theorem rowEvents_mirrorInv {α : Type} [Zero α] {parse : List Char → Option α}
    {header cells : List (List Char)} {es : List (List Char × α)}
    (h : rowEvents parse header cells = some es) : MirrorInv es := by
  unfold rowEvents at h
  split at h
  · simp only [Option.bind_eq_some, Option.some.injEq] at h
    obtain ⟨v1, hv1, v2, hv2, v3, hv3, v4, hv4, v5, hv5, rfl⟩ := h
    exact mirrorInv_append
      (mirrorInv_append
        (mirrorInv_append
          (mirrorInv_append (mirrorInv_cellEvents _ _ _) (mirrorInv_cellEvents _ _ _))
          (mirrorInv_cellEvents _ _ _))
        (mirrorInv_cellEvents _ _ _))
      (mirrorInv_cellEvents _ _ _)
  · cases h

/-- A successful `readNNGo` result is mirror-invariant. -/
theorem readNNGo_mirrorInv {α : Type} [Zero α] (parse : List Char → Option α) :
    ∀ (ls : List (List Char)) (es : List (List Char × α)),
      readNNGo parse ls = some es → MirrorInv es
  | [], es, h => by
    cases h
    exact mirrorInv_nil
  | l0 :: l1 :: l2 :: l3 :: l4 :: l5 :: rest, es, h => by
    unfold readNNGo at h
    simp only [Option.bind_eq_some, Option.some.injEq] at h
    obtain ⟨e1, h1, e2, h2, e3, h3, e4, h4, e5, h5, es', h6, rfl⟩ := h
    exact mirrorInv_append
      (mirrorInv_append
        (mirrorInv_append
          (mirrorInv_append
            (mirrorInv_append (rowEvents_mirrorInv h1) (rowEvents_mirrorInv h2))
            (rowEvents_mirrorInv h3))
          (rowEvents_mirrorInv h4))
        (rowEvents_mirrorInv h5))
      (readNNGo_mirrorInv parse rest es' h6)
  | [_], es, h => by cases h
  | [_, _], es, h => by cases h
  | [_, _, _], es, h => by cases h
  | [_, _, _, _], es, h => by cases h
  | [_, _, _, _, _], es, h => by cases h

/-- C4: for every table returned by the NN parameter loader and every
key of the form "XY/ZW" present in it (with slash-free dinucleotide
parts), the mirror key "reverse(ZW)/reverse(XY)" is also present and
maps to the identical value. -/
theorem readNN_mirror_symmetry {α : Type} [Zero α]
    (parse : List Char → Option α) (ls : List (List Char))
    (es : List (List Char × α)) (h : readNN parse ls = some es)
    (x y : List Char) (v : α) (hx : '/' ∉ x) (hy : '/' ∉ y)
    (hv : dget es (x ++ '/' :: y) = some v) :
    dget es (mirrorKey x y) = some v := by
  rw [← readNNGo_mirrorInv parse ls es h x y hx hy]
  exact hv

/-- A concrete six-row parameter block used for executable checks.
Header row, then five value rows with distinct dinucleotide labels. -/
def lsW : List (List Char) :=
  ["X\tAA\tAC\tAG\tAT\tCA".toList,
   "GA\t1\t1\t1\t1\t1".toList,
   "GC\t1\t1\t1\t1\t1".toList,
   "GG\t1\t1\t1\t1\t1".toList,
   "GT\t1\t1\t1\t1\t1".toList,
   "TA\t1\t1\t1\t1\t1".toList]

/-- A concrete stand-in for Python `float` covering the cells of `lsW`. -/
def parseW : List Char → Option ℚ :=
  fun s => if s = "1".toList then some 1 else none

/-- C4 witness: the concrete block `lsW` parses, the key "GA/AA" is
present with value 1, and the theorem yields its mirror "AA/AG" with the
same value. -/
theorem readNN_mirror_symmetry_witness :
    dget ((readNN parseW lsW).getD []) (mirrorKey "GA".toList "AA".toList) =
      some (1 : ℚ) :=
  readNN_mirror_symmetry parseW lsW ((readNN parseW lsW).getD []) (by decide)
    "GA".toList "AA".toList 1 (by decide) (by decide) (by decide)

/-- The events of one successful inner row: the cell paired with column
header `hj` in row `cells` is assigned under the forward key
`rowLabel ++ "/" ++ header[j]`. -/
theorem rowEvents_mem {α : Type} [Zero α] {parse : List Char → Option α}
    {header cells : List (List Char)} {es : List (List Char × α)}
    (h : rowEvents parse header cells = some es)
    {h0 h1 h2 h3 h4 h5 c0 c1 c2 c3 c4 c5 : List Char}
    {hrest crest : List (List Char)}
    (hh : header = h0 :: h1 :: h2 :: h3 :: h4 :: h5 :: hrest)
    (hc : cells = c0 :: c1 :: c2 :: c3 :: c4 :: c5 :: crest)
    {cj hj : List Char}
    (hcol : (cj, hj) ∈ [(c1, h1), (c2, h2), (c3, h3), (c4, h4), (c5, h5)])
    {v : α} (hv : cellValue parse cj = some v) :
    (c0 ++ '/' :: hj, v) ∈ es := by
  subst hh hc
  simp only [rowEvents, Option.bind_eq_some, Option.some.injEq] at h
  obtain ⟨v1, hv1, v2, hv2, v3, hv3, v4, hv4, v5, hv5, rfl⟩ := h
  simp only [List.mem_cons, List.not_mem_nil, or_false, Prod.mk.injEq] at hcol
  rcases hcol with ⟨rfl, rfl⟩ | ⟨rfl, rfl⟩ | ⟨rfl, rfl⟩ | ⟨rfl, rfl⟩ | ⟨rfl, rfl⟩
  · rw [hv1] at hv
    cases hv
    simp [cellEvents, List.mem_append]
  · rw [hv2] at hv
    cases hv
    simp [cellEvents, List.mem_append]
  · rw [hv3] at hv
    cases hv
    simp [cellEvents, List.mem_append]
  · rw [hv4] at hv
    cases hv
    simp [cellEvents, List.mem_append]
  · rw [hv5] at hv
    cases hv
    simp [cellEvents, List.mem_append]

/-- Each of the five value rows of a successfully parsed single block
contributes all of its assignment events to the block's event list. -/
theorem readNN_one_block_rows {α : Type} [Zero α] {parse : List Char → Option α}
    {l0 r1 r2 r3 r4 r5 : List Char} {es : List (List Char × α)}
    (h : readNN parse [l0, r1, r2, r3, r4, r5] = some es) {ri : List Char}
    (hi : ri ∈ [r1, r2, r3, r4, r5]) :
    ∃ ei, rowEvents parse (splitOnP isTabComma l0) (splitOnP isTabComma ri) = some ei ∧
      ∀ p ∈ ei, p ∈ es := by
  simp only [readNN, readNNGo, Option.some_bind, Option.bind_eq_some,
    Option.some.injEq] at h
  obtain ⟨e1, h1, e2, h2, e3, h3, e4, h4, e5, h5, rfl⟩ := h
  simp only [List.mem_cons, List.not_mem_nil, or_false] at hi
  rcases hi with rfl | rfl | rfl | rfl | rfl
  · exact ⟨e1, h1, fun p hp => by simp [List.mem_append, hp]⟩
  · exact ⟨e2, h2, fun p hp => by simp [List.mem_append, hp]⟩
  · exact ⟨e3, h3, fun p hp => by simp [List.mem_append, hp]⟩
  · exact ⟨e4, h4, fun p hp => by simp [List.mem_append, hp]⟩
  · exact ⟨e5, h5, fun p hp => by simp [List.mem_append, hp]⟩

/-- C5 (amended): when `_readNN` parses one six-row block, the parsed
cell of row i ∈ 1..5 and column j ∈ 1..5 is assigned in the table under
the forward key "rowLabel/header[col]" — the row's leading dinucleotide
label, then '/', then the dinucleotide from the block's header row at
that column — and a blank numeric cell is stored as the value 0. -/
theorem readNN_block_forward_key {α : Type} [Zero α]
    (parse : List Char → Option α) (l0 r1 r2 r3 r4 r5 : List Char)
    (es : List (List Char × α))
    (h : readNN parse [l0, r1, r2, r3, r4, r5] = some es)
    (ri : List Char) (hi : ri ∈ [r1, r2, r3, r4, r5])
    (h0 h1 h2 h3 h4 h5 : List Char) (hrest : List (List Char))
    (hheader : splitOnP isTabComma l0 = h0 :: h1 :: h2 :: h3 :: h4 :: h5 :: hrest)
    (c0 c1 c2 c3 c4 c5 : List Char) (crest : List (List Char))
    (hcells : splitOnP isTabComma ri = c0 :: c1 :: c2 :: c3 :: c4 :: c5 :: crest)
    (cj hj : List Char)
    (hcol : (cj, hj) ∈ [(c1, h1), (c2, h2), (c3, h3), (c4, h4), (c5, h5)])
    (v : α) (hv : cellValue parse cj = some v) :
    (c0 ++ '/' :: hj, v) ∈ es ∧ (cj = [] → v = 0) := by
  obtain ⟨ei, hrow, hsub⟩ := readNN_one_block_rows h hi
  refine ⟨hsub _ (rowEvents_mem hrow hheader hcells hcol hv), ?_⟩
  intro hnil
  rw [hnil] at hv
  simp [cellValue] at hv
  exact hv.symm

/-- C5 counterexample: in the concretely parsed block `lsW`, the cell at
row 1, column 1 (which parses to 1.0) is NOT stored under the claimed
key "header[1]/rowLabel1" = "AA/GA"; the block parses successfully and
that cell sits under "rowLabel1/header[1]" = "GA/AA" instead. -/
theorem readNN_block_key_counterexample :
    (readNN parseW lsW).isSome = true ∧
    dget ((readNN parseW lsW).getD []) "AA/GA".toList = none ∧
    dget ((readNN parseW lsW).getD []) "GA/AA".toList = some (1 : ℚ) := by
  decide

/-- C5 witness: the amended forward-key statement evaluated on the
concrete block `lsW` at row 1, column 1. -/
theorem readNN_block_forward_key_witness :
    ("GA/AA".toList, (1 : ℚ)) ∈ (readNN parseW lsW).getD [] :=
  (readNN_block_forward_key parseW
    "X\tAA\tAC\tAG\tAT\tCA".toList
    "GA\t1\t1\t1\t1\t1".toList "GC\t1\t1\t1\t1\t1".toList
    "GG\t1\t1\t1\t1\t1".toList "GT\t1\t1\t1\t1\t1".toList
    "TA\t1\t1\t1\t1\t1".toList
    ((readNN parseW lsW).getD []) (by decide)
    "GA\t1\t1\t1\t1\t1".toList (by decide)
    "X".toList "AA".toList "AC".toList "AG".toList "AT".toList "CA".toList []
    (by decide)
    "GA".toList "1".toList "1".toList "1".toList "1".toList "1".toList []
    (by decide)
    "1".toList "AA".toList (by decide) 1 (by decide)).1

instance exceptDecidableEq {ε β : Type} [DecidableEq ε] [DecidableEq β] :
    DecidableEq (Except ε β) := fun x y =>
  match x, y with
  | .ok a, .ok b =>
    match decEq a b with
    | .isTrue h => .isTrue (h ▸ rfl)
    | .isFalse h => .isFalse fun hc => h (Except.ok.inj hc)
  | .error a, .error b =>
    match decEq a b with
    | .isTrue h => .isTrue (h ▸ rfl)
    | .isFalse h => .isFalse fun hc => h (Except.error.inj hc)
  | .ok _, .error _ => .isFalse fun hc => Except.noConfusion hc
  | .error _, .ok _ => .isFalse fun hc => Except.noConfusion hc

/-- Whether a character passes `_get_dHdS`'s alphabet check
`re.search("[^ACGT/]", pair)` (thermo.py line 193). -/
def validChar (c : Char) : Bool :=
  c = 'A' || c = 'C' || c = 'G' || c = 'T' || c = '/'

/-- The terminal AT correction condition of `_get_dHdS` (thermo.py lines
239 and 243): an end is penalized when its two characters, concatenated,
are neither "GC" nor "CG". -/
def terminalPenalized (x y : Char) : Bool :=
  !([x, y] = ['G', 'C'] || [x, y] = ['C', 'G'])

/-- Number of duplex ends receiving the terminal AT penalty. -/
def endPenaltyCount (t0 b0 tn bn : Char) : ℕ :=
  (if terminalPenalized t0 b0 then 1 else 0) +
    (if terminalPenalized tn bn then 1 else 0)

/-- The propagation loop of `_get_dHdS` (thermo.py lines 220-233):
starting from the accumulated `(dH, dS)`, add the nearest-neighbor
parameters of each dinucleotide step `top[b:b+2] + "/" + bottom[b:b+2]`
in order; a key missing from either table is the reported
`NNnotExistError`. -/
def nnProp {α : Type} (nndH nndS : List Char → Option α) [Add α] :
    List Char → List Char → α × α → Except CalcErr (α × α)
  | t0 :: t1 :: ts, b0 :: b1 :: bs, acc =>
    match nndH [t0, t1, '/', b0, b1], nndS [t0, t1, '/', b0, b1] with
    | some h, some s => nnProp nndH nndS (t1 :: ts) (b1 :: bs) (acc.1 + h, acc.2 + s)
    | _, _ => .error .nnNotExist
  | _, _, acc => .ok acc

/-- `Thermo._get_dHdS` (thermo.py lines 168-247): raw ΔH/ΔS of one
duplex.  Uppercase the pair; reject characters outside {A,C,G,T,'/'}
(`NotDNAError`); split at '/' (`IndexError` when there is no second
field); reject unequal strand lengths (`DuplexNotFlushError`);
initiation ΔH = 0.2, ΔS = −5.7; nearest-neighbor propagation; −1.4
entropy symmetry correction when the top strand equals its own reverse
complement; independent terminal AT correction (+2.2, +6.9) at each
end; `IndexError` on `top[0]`/`top[-1]` of an empty strand. -/
def get_dHdS {α : Type} [LinearOrderedField α]
    (nndH nndS : List Char → Option α) (pair0 : List Char) :
    Except CalcErr (α × α) :=
  let pair := pair0.map Char.toUpper
  if pair.any fun c => !validChar c then .error .notDNA
  else
    match splitOnP (fun c => c = '/') pair with
    | t :: b :: _ =>
      if t.length ≠ b.length then .error .notFlush
      else
        match nnProp nndH nndS t b (2 / 10, -(57 / 10)) with
        | .error e => .error e
        | .ok (dH, dS) =>
          match t.head?, b.head?, t.getLast?, b.getLast? with
          | some t0, some b0, some tn, some bn =>
            .ok (dH + (if terminalPenalized t0 b0 then 22 / 10 else 0)
                    + (if terminalPenalized tn bn then 22 / 10 else 0),
                 dS + (if t = seqRC t then -(14 / 10) else 0)
                    + (if terminalPenalized t0 b0 then 69 / 10 else 0)
                    + (if terminalPenalized tn bn then 69 / 10 else 0))
          | _, _, _, _ => .error .indexError
    | _ => .error .indexError

theorem toUpper_fixed {c : Char} (h : c = 'A' ∨ c = 'C' ∨ c = 'G' ∨ c = 'T') :
    c.toUpper = c := by
  rcases h with rfl | rfl | rfl | rfl <;> decide

theorem map_toUpper_eq_self {l : List Char}
    (h : ∀ c ∈ l, c = 'A' ∨ c = 'C' ∨ c = 'G' ∨ c = 'T') :
    l.map Char.toUpper = l := by
  induction l with
  | nil => rfl
  | cons c cs ih =>
    rw [List.map_cons, toUpper_fixed (h c (List.mem_cons_self c cs)),
      ih fun d hd => h d (List.mem_cons_of_mem c hd)]

/-- Shared decomposition of a successful `_get_dHdS` run on an
uppercase, slash-free, flush duplex. -/
theorem get_dHdS_decomp {α : Type} [LinearOrderedField α]
    (nndH nndS : List Char → Option α) (t b : List Char)
    (hvt : ∀ c ∈ t, c = 'A' ∨ c = 'C' ∨ c = 'G' ∨ c = 'T')
    (hvb : ∀ c ∈ b, c = 'A' ∨ c = 'C' ∨ c = 'G' ∨ c = 'T')
    (hlen : t.length = b.length)
    (t0 b0 tn bn : Char) (ht0 : t.head? = some t0) (hb0 : b.head? = some b0)
    (htn : t.getLast? = some tn) (hbn : b.getLast? = some bn)
    (pH pS : α) (hprop : nnProp nndH nndS t b (2 / 10, -(57 / 10)) = .ok (pH, pS)) :
    get_dHdS nndH nndS (t ++ '/' :: b) =
      .ok (pH + (if terminalPenalized t0 b0 then 22 / 10 else 0)
              + (if terminalPenalized tn bn then 22 / 10 else 0),
           pS + (if t = seqRC t then -(14 / 10) else 0)
              + (if terminalPenalized t0 b0 then 69 / 10 else 0)
              + (if terminalPenalized tn bn then 69 / 10 else 0)) := by
  have hmap : (t ++ '/' :: b).map Char.toUpper = t ++ '/' :: b := by
    rw [List.map_append, List.map_cons, map_toUpper_eq_self hvt,
      map_toUpper_eq_self hvb]
    rfl
  have hany : (t ++ '/' :: b).any (fun c => !validChar c) = false := by
    rw [List.any_eq_false]
    intro c hc
    rcases List.mem_append.mp hc with hct | hcb
    · rcases hvt c hct with rfl | rfl | rfl | rfl <;> decide
    · rcases List.mem_cons.mp hcb with rfl | hcb'
      · decide
      · rcases hvb c hcb' with rfl | rfl | rfl | rfl <;> decide
  have hsplit : splitOnP (fun c => decide (c = '/')) (t ++ '/' :: b) = [t, b] := by
    rw [splitOnP_append _ t b '/'
        (fun d hd => by rcases hvt d hd with rfl | rfl | rfl | rfl <;> decide)
        (by decide),
      splitOnP_clean _ b
        (fun d hd => by rcases hvb d hd with rfl | rfl | rfl | rfl <;> decide)]
  simp only [get_dHdS, hmap, hany, hsplit, Bool.false_eq_true, if_false,
    hlen, ne_eq, not_true_eq_false, hprop, ht0, hb0, htn, hbn]

/-- C3: in the per-duplex ΔH/ΔS computation the two ends are examined
independently; each end whose terminal base pair is not G-C and not C-G
contributes exactly +2.2 to ΔH and +6.9 to ΔS (`endPenaltyCount` counts
the penalized ends: 2 for A-T at both ends, giving +4.4 and +13.8 in
total, and a G-C or C-G end contributes nothing for that end). -/
theorem get_dHdS_terminal_AT_penalty {α : Type} [LinearOrderedField α]
    (nndH nndS : List Char → Option α) (t b : List Char)
    (hvt : ∀ c ∈ t, c = 'A' ∨ c = 'C' ∨ c = 'G' ∨ c = 'T')
    (hvb : ∀ c ∈ b, c = 'A' ∨ c = 'C' ∨ c = 'G' ∨ c = 'T')
    (hlen : t.length = b.length)
    (t0 b0 tn bn : Char) (ht0 : t.head? = some t0) (hb0 : b.head? = some b0)
    (htn : t.getLast? = some tn) (hbn : b.getLast? = some bn)
    (pH pS : α) (hprop : nnProp nndH nndS t b (2 / 10, -(57 / 10)) = .ok (pH, pS)) :
    get_dHdS nndH nndS (t ++ '/' :: b) =
      .ok (pH + (endPenaltyCount t0 b0 tn bn : α) * (22 / 10),
           pS + (if t = seqRC t then -(14 / 10) else 0)
              + (endPenaltyCount t0 b0 tn bn : α) * (69 / 10)) := by
  rw [get_dHdS_decomp nndH nndS t b hvt hvb hlen t0 b0 tn bn ht0 hb0 htn hbn pH pS hprop]
  by_cases h1 : terminalPenalized t0 b0 = true <;>
    by_cases h2 : terminalPenalized tn bn = true <;>
      simp only [endPenaltyCount, h1, h2, if_true, if_false,
        Bool.not_eq_true, Except.ok.injEq, Prod.mk.injEq] <;>
      constructor <;> push_cast <;> ring

/-- Constant unit nearest-neighbor table used for executable checks. -/
def nnW : List Char → Option ℚ := fun _ => some 1

/-- C3 witness: duplex "AA/TT" (A-T pairs at both ends) under the
constant unit tables — both ends penalized. -/
theorem get_dHdS_terminal_AT_penalty_witness :
    get_dHdS nnW nnW (['A', 'A'] ++ '/' :: ['T', 'T']) =
      .ok ((2 / 10 + 1) + ((endPenaltyCount 'A' 'T' 'A' 'T' : ℕ) : ℚ) * (22 / 10),
           (-(57 / 10) + 1)
              + (if ['A', 'A'] = seqRC ['A', 'A'] then -(14 / 10) else 0)
              + ((endPenaltyCount 'A' 'T' 'A' 'T' : ℕ) : ℚ) * (69 / 10)) :=
  get_dHdS_terminal_AT_penalty nnW nnW ['A', 'A'] ['T', 'T']
    (by decide) (by decide) (by decide)
    'A' 'T' 'A' 'T' (by decide) (by decide) (by decide) (by decide)
    (2 / 10 + 1) (-(57 / 10) + 1) (by norm_num [nnProp, nnW])

/-- C6: the −1.4 entropy symmetry correction is added exactly when the
uppercased top strand equals its own reverse complement; a
non-self-complementary duplex receives no symmetry correction. -/
theorem get_dHdS_symmetry_correction {α : Type} [LinearOrderedField α]
    (nndH nndS : List Char → Option α) (t b : List Char)
    (hvt : ∀ c ∈ t, c = 'A' ∨ c = 'C' ∨ c = 'G' ∨ c = 'T')
    (hvb : ∀ c ∈ b, c = 'A' ∨ c = 'C' ∨ c = 'G' ∨ c = 'T')
    (hlen : t.length = b.length)
    (t0 b0 tn bn : Char) (ht0 : t.head? = some t0) (hb0 : b.head? = some b0)
    (htn : t.getLast? = some tn) (hbn : b.getLast? = some bn)
    (pH pS : α) (hprop : nnProp nndH nndS t b (2 / 10, -(57 / 10)) = .ok (pH, pS)) :
    (t = seqRC t →
      get_dHdS nndH nndS (t ++ '/' :: b) =
        .ok (pH + (if terminalPenalized t0 b0 then 22 / 10 else 0)
                + (if terminalPenalized tn bn then 22 / 10 else 0),
             pS + -(14 / 10)
                + (if terminalPenalized t0 b0 then 69 / 10 else 0)
                + (if terminalPenalized tn bn then 69 / 10 else 0))) ∧
    (t ≠ seqRC t →
      get_dHdS nndH nndS (t ++ '/' :: b) =
        .ok (pH + (if terminalPenalized t0 b0 then 22 / 10 else 0)
                + (if terminalPenalized tn bn then 22 / 10 else 0),
             pS + (if terminalPenalized t0 b0 then 69 / 10 else 0)
                + (if terminalPenalized tn bn then 69 / 10 else 0))) := by
  constructor
  · intro hsym
    rw [get_dHdS_decomp nndH nndS t b hvt hvb hlen t0 b0 tn bn ht0 hb0 htn hbn pH pS hprop,
      if_pos hsym]
  · intro hsym
    rw [get_dHdS_decomp nndH nndS t b hvt hvb hlen t0 b0 tn bn ht0 hb0 htn hbn pH pS hprop,
      if_neg hsym, add_zero]

/-- C6 witness: the self-complementary duplex "GAATTC/CTTAAG" receives
the −1.4 entropy symmetry correction. -/
theorem get_dHdS_symmetry_correction_witness :
    get_dHdS nnW nnW (['G', 'A', 'A', 'T', 'T', 'C'] ++ '/' :: ['C', 'T', 'T', 'A', 'A', 'G']) =
      .ok ((2 / 10 + 1 + 1 + 1 + 1 + 1) + (if terminalPenalized 'G' 'C' then 22 / 10 else 0)
              + (if terminalPenalized 'C' 'G' then 22 / 10 else 0),
           (-(57 / 10) + 1 + 1 + 1 + 1 + 1) + -(14 / 10)
              + (if terminalPenalized 'G' 'C' then 69 / 10 else 0)
              + (if terminalPenalized 'C' 'G' then 69 / 10 else 0)) :=
  (get_dHdS_symmetry_correction nnW nnW
    ['G', 'A', 'A', 'T', 'T', 'C'] ['C', 'T', 'T', 'A', 'A', 'G']
    (by decide) (by decide) (by decide)
    'G' 'C' 'C' 'G' (by decide) (by decide) (by decide) (by decide)
    (2 / 10 + 1 + 1 + 1 + 1 + 1) (-(57 / 10) + 1 + 1 + 1 + 1 + 1)
    (by norm_num [nnProp, nnW])).1 (by decide)

/-- Python `math.sqrt`: raises `ValueError` ("math domain error") on a
negative argument. -/
noncomputable def pySqrt (x : ℝ) : Except CalcErr ℝ :=
  if 0 ≤ x then .ok (Real.sqrt x) else .error .mathDomain

/-- Python `math.log`: raises `ValueError` ("math domain error") on a
non-positive argument. -/
noncomputable def pyLog (x : ℝ) : Except CalcErr ℝ :=
  if 0 < x then .ok (Real.log x) else .error .mathDomain

/-- `Thermo._perBcal` (thermo.py lines 142-165): fraction bound from the
equilibrium constant `k`, primer concentration `cp` and template
concentration `ct`. -/
noncomputable def perBcal (k cp ct : ℝ) : Except CalcErr ℝ :=
  let c := cp / ct
  let b := -(c + 1 + 1 / k / ct)
  (pySqrt (b * b - 4 * c)).map fun x =>
    let p1 := (-b + x) / 2
    let p2 := c / p1
    if 0 ≤ p1 ∧ p1 ≤ 1 then p1 else p2

/-- C2: for `k > 0` and `cp ≥ ct > 0`, `_perBcal` computes
`c = cp/ct`, `b = -(c + 1 + 1/(k·ct))`, `x = sqrt(b·b - 4c)`,
`p1 = (-b + x)/2`, `p2 = c/p1`, returns `p1` if it lies in [0, 1] and
otherwise `p2`, and the returned value always lies in [0, 1]. -/
theorem perBcal_spec (k cp ct c b x p1 p2 : ℝ) (hk : 0 < k) (hct : 0 < ct)
    (hcp : ct ≤ cp) (hc : c = cp / ct) (hb : b = -(c + 1 + 1 / k / ct))
    (hx : x = Real.sqrt (b * b - 4 * c)) (hp1 : p1 = (-b + x) / 2)
    (hp2 : p2 = c / p1) :
    perBcal k cp ct = .ok (if 0 ≤ p1 ∧ p1 ≤ 1 then p1 else p2) ∧
      0 ≤ (if 0 ≤ p1 ∧ p1 ≤ 1 then p1 else p2) ∧
      (if 0 ≤ p1 ∧ p1 ≤ 1 then p1 else p2) ≤ 1 := by
  have he : 0 < 1 / k / ct := by positivity
  have hc1 : 1 ≤ c := by
    rw [hc]
    exact (one_le_div hct).mpr hcp
  have hD : b * b - 4 * c = (c - 1 + 1 / k / ct) ^ 2 + 4 * (1 / k / ct) := by
    rw [hb]
    ring
  have hD0 : 0 ≤ b * b - 4 * c := by
    rw [hD]
    positivity
  have hsq : Real.sqrt ((c - 1 + 1 / k / ct) ^ 2) < x := by
    rw [hx]
    apply Real.sqrt_lt_sqrt (sq_nonneg _)
    rw [hD]
    linarith
  have hxgt : c - 1 + 1 / k / ct < x := by
    rwa [Real.sqrt_sq (by linarith)] at hsq
  have hp1gt : 1 < p1 := by
    rw [hp1, hb]
    linarith
  have hcond : ¬(0 ≤ p1 ∧ p1 ≤ 1) := fun hcon => absurd hcon.2 (not_le.mpr hp1gt)
  have hc0 : 0 < c := lt_of_lt_of_le one_pos hc1
  have hp1pos : 0 < p1 := lt_trans one_pos hp1gt
  have hcltp1 : c < p1 := by
    rw [hp1, hb]
    linarith
  have hp2pos : 0 < p2 := by
    rw [hp2]
    exact div_pos hc0 hp1pos
  have hp2le : p2 ≤ 1 := by
    rw [hp2]
    exact le_of_lt ((div_lt_one hp1pos).mpr hcltp1)
  refine ⟨?_, ?_, ?_⟩
  · simp only [perBcal]
    rw [← hc, ← hb]
    simp only [pySqrt, if_pos hD0, Except.map]
    rw [← hx, ← hp1, ← hp2]
  · rw [if_neg hcond]
    exact le_of_lt hp2pos
  · rw [if_neg hcond]
    exact hp2le

noncomputable def perBW_c : ℝ := 1 / 1

noncomputable def perBW_b : ℝ := -(perBW_c + 1 + 1 / 1 / 1)

noncomputable def perBW_x : ℝ := Real.sqrt (perBW_b * perBW_b - 4 * perBW_c)

noncomputable def perBW_p1 : ℝ := (-perBW_b + perBW_x) / 2

noncomputable def perBW_p2 : ℝ := perBW_c / perBW_p1

/-- C2 witness: the binding quadratic at `k = cp = ct = 1`. -/
theorem perBcal_spec_witness :
    perBcal 1 1 1 = .ok (if 0 ≤ perBW_p1 ∧ perBW_p1 ≤ 1 then perBW_p1 else perBW_p2) ∧
      0 ≤ (if 0 ≤ perBW_p1 ∧ perBW_p1 ≤ 1 then perBW_p1 else perBW_p2) ∧
      (if 0 ≤ perBW_p1 ∧ perBW_p1 ≤ 1 then perBW_p1 else perBW_p2) ≤ 1 :=
  perBcal_spec 1 1 1 perBW_c perBW_b perBW_x perBW_p1 perBW_p2
    (by norm_num) (by norm_num) (by norm_num) rfl rfl rfl rfl rfl

/-- Errors raised by `Thermo.__init__` (thermo.py lines 447-457,
error.py): `ConcentrationZeroError` carries the offending variable
name. -/
inductive InitError where
  | concentrationZero (v : String)
  | concentrationOrder
  | temperatureRange
deriving DecidableEq, Repr

/-- The condition state stored by a successfully constructed `Thermo`
object (thermo.py lines 459-466): concentrations in molar, temperature
in Kelvin, and the two NN tables read during construction. -/
structure Cond (α : Type) where
  temper : α
  cp : α
  ct : α
  na : α
  mg : α
  nndH : List Char → Option α
  nndS : List Char → Option α

/-- The conversions and table loads performed by `Thermo.__init__`
after all checks pass (thermo.py lines 459-466):
`×1e-9` on `cp`/`ct`, `+273.15` on the temperature, `×1e-3` on
`na`/`mg`; `loadH`/`loadS` stand for the two `_readNN` invocations. -/
def condOf {α : Type} [LinearOrderedField α]
    (loadH loadS : Unit → List Char → Option α) (temper cp ct na mg : α) :
    Cond α :=
  ⟨temper + 27315 / 100, cp * (1 / 10 ^ 9), ct * (1 / 10 ^ 9),
   na * (1 / 10 ^ 3), mg * (1 / 10 ^ 3), loadH (), loadS ()⟩

/-- `Thermo.__init__` (thermo.py lines 430-466): the four scalar checks
in source order (`cp==0`, `ct==0`, `cp<ct`, `temper>200 or
temper<-100`), then unit conversion and the two NN table loads. -/
def thermoInit {α : Type} [LinearOrderedField α]
    (loadH loadS : Unit → List Char → Option α) (temper cp ct na mg : α) :
    Except InitError (Cond α) :=
  if cp = 0 then .error (.concentrationZero "cp")
  else if ct = 0 then .error (.concentrationZero "ct")
  else if cp < ct then .error .concentrationOrder
  else if temper > 200 ∨ temper < -100 then .error .temperatureRange
  else .ok (condOf loadH loadS temper cp ct na mg)

/-- C7: Condition construction validates cp≠0, ct≠0, cp≥ct, temperature
∈ [-100, 200], in that order; the first violated check raises its
specific error and the result is then independent of the NN loaders
(construction aborts before any table load); cp = 0 and ct = 0
simultaneously give the concentration-zero error naming "cp"; the
loaders are consulted only in the success case, after all four checks
pass. -/
theorem thermoInit_validation_order {α : Type} [LinearOrderedField α]
    (loadH loadS loadH' loadS' : Unit → List Char → Option α)
    (temper cp ct na mg : α) :
    (cp = 0 →
      thermoInit loadH loadS temper cp ct na mg = .error (.concentrationZero "cp") ∧
      thermoInit loadH loadS temper cp ct na mg =
        thermoInit loadH' loadS' temper cp ct na mg) ∧
    (cp ≠ 0 → ct = 0 →
      thermoInit loadH loadS temper cp ct na mg = .error (.concentrationZero "ct") ∧
      thermoInit loadH loadS temper cp ct na mg =
        thermoInit loadH' loadS' temper cp ct na mg) ∧
    (cp ≠ 0 → ct ≠ 0 → cp < ct →
      thermoInit loadH loadS temper cp ct na mg = .error .concentrationOrder ∧
      thermoInit loadH loadS temper cp ct na mg =
        thermoInit loadH' loadS' temper cp ct na mg) ∧
    (cp ≠ 0 → ct ≠ 0 → ¬cp < ct → (temper > 200 ∨ temper < -100) →
      thermoInit loadH loadS temper cp ct na mg = .error .temperatureRange ∧
      thermoInit loadH loadS temper cp ct na mg =
        thermoInit loadH' loadS' temper cp ct na mg) ∧
    (cp ≠ 0 → ct ≠ 0 → ¬cp < ct → ¬(temper > 200 ∨ temper < -100) →
      thermoInit loadH loadS temper cp ct na mg =
        .ok (condOf loadH loadS temper cp ct na mg)) := by
  refine ⟨fun h1 => ?_, fun h1 h2 => ?_, fun h1 h2 h3 => ?_,
    fun h1 h2 h3 h4 => ?_, fun h1 h2 h3 h4 => ?_⟩
  · exact ⟨by simp [thermoInit, h1], by simp [thermoInit, h1]⟩
  · exact ⟨by simp [thermoInit, h1, h2], by simp [thermoInit, h1, h2]⟩
  · exact ⟨by simp [thermoInit, h1, h2, h3], by simp [thermoInit, h1, h2, h3]⟩
  · exact ⟨by simp [thermoInit, h1, h2, h3, h4], by simp [thermoInit, h1, h2, h3, h4]⟩
  · simp [thermoInit, h1, h2, h3, h4]

/-- Unit-table loader over ℚ used for executable checks. -/
def loadQ1 : Unit → List Char → Option ℚ := fun _ => fun _ => some 1

/-- Empty-table loader over ℚ used for executable checks; differs from
`loadQ1` so that loader-independence is meaningful. -/
def loadQ2 : Unit → List Char → Option ℚ := fun _ => fun _ => none

/-- C7 witness: cp = 0 and ct = 0 simultaneously raise the
concentration-zero error for "cp", independently of the loaders. -/
theorem thermoInit_validation_order_witness :
    thermoInit loadQ1 loadQ1 65 0 0 1 1 = .error (.concentrationZero "cp") ∧
    thermoInit loadQ1 loadQ1 65 0 0 1 1 = thermoInit loadQ2 loadQ2 65 0 0 1 1 :=
  (thermoInit_validation_order loadQ1 loadQ1 loadQ2 loadQ2 65 0 0 (1 : ℚ) 1).1 rfl

/-- Whether an `Except` value is a success. -/
def exceptIsOk {ε β : Type} : Except ε β → Bool
  | .ok _ => true
  | .error _ => false

/-- C8 counterexample: the code checks only `cp==0`/`ct==0`, so a
Condition with negative concentrations cp = −5 and ct = −10 (cp ≥ ct)
is constructed successfully, refuting "primer concentration > 0 and
template concentration > 0" as stated. -/
theorem cond_negative_concentration_counterexample :
    exceptIsOk (thermoInit loadQ1 loadQ1 65 (-5) (-10) 1 1) = true ∧
      ((-5 : ℚ) < 0 ∧ (-10 : ℚ) < 0) := by
  constructor
  · norm_num [thermoInit, exceptIsOk]
  · norm_num

/-- C8 (amended): every successfully constructed Condition satisfies
cp ≠ 0 and ct ≠ 0 (the code rejects zero concentrations, but not
negative ones). -/
theorem cond_nonzero_concentration {α : Type} [LinearOrderedField α]
    (loadH loadS : Unit → List Char → Option α) (temper cp ct na mg : α)
    (s : Cond α) (h : thermoInit loadH loadS temper cp ct na mg = .ok s) :
    cp ≠ 0 ∧ ct ≠ 0 := by
  refine ⟨fun hcp => ?_, fun hct => ?_⟩
  · rw [hcp] at h
    simp [thermoInit] at h
  · rw [hct] at h
    by_cases hcp : cp = 0 <;> simp [thermoInit, hcp] at h

/-- C8 witness: the amended statement applied to a concretely
constructed Condition. -/
theorem cond_nonzero_concentration_witness : (1 : ℚ) ≠ 0 ∧ (1 : ℚ) ≠ 0 :=
  cond_nonzero_concentration loadQ1 loadQ1 65 1 1 1 1
    (condOf loadQ1 loadQ1 65 1 1 1 1) (by norm_num [thermoInit])

/-- The gas constant `Thermo._R_ = 1.987` (thermo.py line 52). -/
noncomputable def Rgas : ℝ := 1987 / 1000

/-- The melting-temperature portion of `Thermo.thermoCal0` (thermo.py
lines 333-348): raw ΔH/ΔS from `_get_dHdS`; effective monovalent salt
`na_eff = na + 0.12*sqrt(mg*1000)`; salt-corrected entropy with
`n = (len(pair) - 1)/2 - 1` (Python float division on the length of the
whole "top/bottom" string); melting equilibrium constant
`ktm = 1/(cp - ct/2)`; `Tm = dH*1000/(dSeff - R*log(ktm)) - 273.15`.
`math.sqrt`/`math.log` domain violations are the unguarded
`ValueError`. -/
noncomputable def thermoCal0Tm (cond : Cond ℝ) (pair : List Char) :
    Except CalcErr ℝ :=
  (get_dHdS cond.nndH cond.nndS pair).bind fun dHS =>
    (pySqrt (cond.mg * 1000)).bind fun sq =>
      (pyLog (cond.na + 12 / 100 * sq)).bind fun lgNa =>
        (pyLog (1 / (cond.cp - cond.ct / 2))).bind fun lgKtm =>
          .ok (dHS.1 * 1000 /
                ((dHS.2 + 368 / 1000 * (((pair.length : ℝ) - 1) / 2 - 1) * lgNa)
                  - Rgas * lgKtm) - 27315 / 100)

/-- C1: for a flush duplex whose nearest-neighbor sums are dH and dS,
the per-duplex Tm in Celsius is
`dH*1000/(dS_eff - R*ln(ktm)) - 273.15`, with `R = 1.987`,
`ktm = 1/(cp - ct/2)`, `dS_eff = dS + 0.368*n*ln(na_eff)`,
`n = (duplexLength - 1)/2 - 1` for the length of the duplex string
"top/bottom", and `na_eff = na + 0.12*sqrt(mg*1000)`, where cp, ct, na,
mg are the stored molar concentrations of the Condition. -/
theorem thermoCal0Tm_formula (cond : Cond ℝ) (pair : List Char) (dH dS : ℝ)
    (hget : get_dHdS cond.nndH cond.nndS pair = .ok (dH, dS))
    (hmg : 0 ≤ cond.mg * 1000)
    (hna : 0 < cond.na + 12 / 100 * Real.sqrt (cond.mg * 1000))
    (hktm : 0 < 1 / (cond.cp - cond.ct / 2)) :
    thermoCal0Tm cond pair =
      .ok (dH * 1000 /
            ((dS + 368 / 1000 * (((pair.length : ℝ) - 1) / 2 - 1) *
                Real.log (cond.na + 12 / 100 * Real.sqrt (cond.mg * 1000)))
              - Rgas * Real.log (1 / (cond.cp - cond.ct / 2))) - 27315 / 100) := by
  simp only [thermoCal0Tm, hget, pySqrt, if_pos hmg, pyLog, if_pos hna,
    if_pos hktm, Except.bind]

/-- Constant unit nearest-neighbor table over ℝ for executable checks. -/
noncomputable def nnR : List Char → Option ℝ := fun _ => some 1

/-- Loader producing `nnR`, standing for a successful `_readNN`. -/
noncomputable def loadR : Unit → List Char → Option ℝ := fun _ => nnR

/-- C10: Condition construction performs no validation of the salt
concentrations: na = 0 and mg = 0 construct successfully, and every
per-duplex calculation on such a Condition that gets past `_get_dHdS`
evaluates `ln(na_eff) = ln(0)` and fails with the unguarded math domain
error, not with any of the reported error kinds. -/
theorem cond_zero_salt_math_domain (loadH loadS : Unit → List Char → Option ℝ)
    (temper cp ct : ℝ) (h1 : cp ≠ 0) (h2 : ct ≠ 0) (h3 : ¬cp < ct)
    (h4 : ¬(temper > 200 ∨ temper < -100)) :
    thermoInit loadH loadS temper cp ct 0 0 =
      .ok (condOf loadH loadS temper cp ct 0 0) ∧
    (condOf loadH loadS temper cp ct 0 0).na = 0 ∧
    (condOf loadH loadS temper cp ct 0 0).mg = 0 ∧
    ∀ (pair : List Char) (p : ℝ × ℝ),
      get_dHdS (condOf loadH loadS temper cp ct 0 0).nndH
          (condOf loadH loadS temper cp ct 0 0).nndS pair = .ok p →
      thermoCal0Tm (condOf loadH loadS temper cp ct 0 0) pair =
        .error .mathDomain := by
  refine ⟨by simp [thermoInit, h1, h2, h3, h4], by simp [condOf], by simp [condOf], ?_⟩
  intro pair p hget
  have hmg : (condOf loadH loadS temper cp ct 0 0).mg * 1000 = 0 := by
    simp [condOf]
  have hna : (condOf loadH loadS temper cp ct 0 0).na = 0 := by
    simp [condOf]
  simp only [thermoCal0Tm, hget, Except.bind, hmg, hna, pySqrt, le_refl, if_pos,
    Real.sqrt_zero, pyLog]
  norm_num

/-- C1 witness: the Tm formula evaluated for the duplex "AA/TT" under
unit tables with cp = 300 nM, ct = 1 nM, na = 100 mM, mg = 0 mM. -/
theorem thermoCal0Tm_formula_witness :
    thermoCal0Tm (condOf loadR loadR 65 300 1 100 0) (['A', 'A'] ++ '/' :: ['T', 'T']) =
      .ok (((2 / 10 + 1) + (if terminalPenalized 'A' 'T' then 22 / 10 else 0)
              + (if terminalPenalized 'A' 'T' then 22 / 10 else 0)) * 1000 /
            ((((-(57 / 10) + 1) + (if ['A', 'A'] = seqRC ['A', 'A'] then -(14 / 10) else 0)
                + (if terminalPenalized 'A' 'T' then 69 / 10 else 0)
                + (if terminalPenalized 'A' 'T' then 69 / 10 else 0))
              + 368 / 1000 * ((((['A', 'A'] ++ '/' :: ['T', 'T']).length : ℝ) - 1) / 2 - 1) *
                Real.log ((condOf loadR loadR 65 300 1 100 0).na
                  + 12 / 100 * Real.sqrt ((condOf loadR loadR 65 300 1 100 0).mg * 1000)))
              - Rgas * Real.log (1 / ((condOf loadR loadR 65 300 1 100 0).cp
                  - (condOf loadR loadR 65 300 1 100 0).ct / 2))) - 27315 / 100) :=
  thermoCal0Tm_formula (condOf loadR loadR 65 300 1 100 0)
    (['A', 'A'] ++ '/' :: ['T', 'T'])
    ((2 / 10 + 1) + (if terminalPenalized 'A' 'T' then 22 / 10 else 0)
       + (if terminalPenalized 'A' 'T' then 22 / 10 else 0))
    ((-(57 / 10) + 1) + (if ['A', 'A'] = seqRC ['A', 'A'] then -(14 / 10) else 0)
       + (if terminalPenalized 'A' 'T' then 69 / 10 else 0)
       + (if terminalPenalized 'A' 'T' then 69 / 10 else 0))
    (get_dHdS_decomp nnR nnR ['A', 'A'] ['T', 'T'] (by decide) (by decide) (by decide)
      'A' 'T' 'A' 'T' (by decide) (by decide) (by decide) (by decide)
      (2 / 10 + 1) (-(57 / 10) + 1) (by norm_num [nnProp, nnR]))
    (by norm_num [condOf]) (by norm_num [condOf, Real.sqrt_zero])
    (by norm_num [condOf])

/-- C10 witness: na = 0, mg = 0 constructs, and the Tm calculation on
"AA/TT" fails with the math domain error. -/
theorem cond_zero_salt_math_domain_witness :
    thermoCal0Tm (condOf loadR loadR 65 300 1 0 0) (['A', 'A'] ++ '/' :: ['T', 'T']) =
      .error .mathDomain :=
  (cond_zero_salt_math_domain loadR loadR 65 300 1 (by norm_num) (by norm_num)
      (by norm_num) (by norm_num)).2.2.2
    (['A', 'A'] ++ '/' :: ['T', 'T'])
    ((2 / 10 + 1) + (if terminalPenalized 'A' 'T' then 22 / 10 else 0)
       + (if terminalPenalized 'A' 'T' then 22 / 10 else 0),
     (-(57 / 10) + 1) + (if ['A', 'A'] = seqRC ['A', 'A'] then -(14 / 10) else 0)
       + (if terminalPenalized 'A' 'T' then 69 / 10 else 0)
       + (if terminalPenalized 'A' 'T' then 69 / 10 else 0))
    (get_dHdS_decomp nnR nnR ['A', 'A'] ['T', 'T'] (by decide) (by decide) (by decide)
      'A' 'T' 'A' 'T' (by decide) (by decide) (by decide) (by decide)
      (2 / 10 + 1) (-(57 / 10) + 1) (by norm_num [nnProp, nnR]))

/-- One entry of `Tm.getOligoPair` (Tm.py lines 168-186): the stored
value split at tabs; a single field synthesizes the character-wise
complement with no reversal; two fields keep the given second strand,
reversed when `r` is true; any other field count stores nothing for the
entry. -/
def getOligoPairEntry (value : List Char) (r : Bool) : Option (List Char) :=
  match splitOnP (fun c => c = '\t') value with
  | [s] => some (s ++ '/' :: seqComp s)
  | [s1, s2] => some (s1 ++ '/' :: (if r then seqRev s2 else s2))
  | _ => none

/-- C9: a single-strand entry synthesizes "top/complement(top)" with the
complement taken character-wise and not reversed; an explicit pair with
the reverse flag true yields "top/reverse(givenBottom)" — the given
second strand literally reversed, not complemented. -/
theorem getOligoPair_entry_spec (s s1 s2 : List Char) (r : Bool)
    (hs : '\t' ∉ s) (hs1 : '\t' ∉ s1) (hs2 : '\t' ∉ s2) :
    getOligoPairEntry s r = some (s ++ '/' :: seqComp s) ∧
    getOligoPairEntry (s1 ++ '\t' :: s2) true = some (s1 ++ '/' :: seqRev s2) := by
  constructor
  · unfold getOligoPairEntry
    rw [splitOnP_clean _ s fun c hc => decide_eq_false fun (h : c = '\t') => hs (h ▸ hc)]
  · unfold getOligoPairEntry
    rw [splitOnP_append _ s1 s2 '\t'
        (fun c hc => decide_eq_false fun (h : c = '\t') => hs1 (h ▸ hc)) (by decide),
      splitOnP_clean _ s2 fun c hc => decide_eq_false fun (h : c = '\t') => hs2 (h ▸ hc)]
    rfl

/-- C9 witness: single strand "AC" and explicit pair "A" + "CG" with the
reverse flag. -/
theorem getOligoPair_entry_spec_witness :
    getOligoPairEntry ['A', 'C'] false = some (['A', 'C'] ++ '/' :: seqComp ['A', 'C']) ∧
    getOligoPairEntry (['A'] ++ '\t' :: ['C', 'G']) true =
      some (['A'] ++ '/' :: seqRev ['C', 'G']) :=
  getOligoPair_entry_spec ['A', 'C'] ['A'] ['C', 'G'] false
    (by decide) (by decide) (by decide)

end TmPy
